import Mathlib

/-!
Shallow embedding of libsolidity InterfaceHandler (InterfaceHandler.cpp):
the NatSpec tag-based comment parser and the interface/documentation
renderers built on top of it (abiInterface, ABISolidityInterface,
userDocumentation, devDocumentation).

Comment strings are modelled as lists of characters; the C++ iterator
pair (pos, end) becomes the remaining suffix of the comment.  The C++
helper skipLineOrEOS (return end if at end, otherwise skip the newline)
becomes List.tail applied to a suffix that is either empty or starts
with a newline.  Thrown exceptions become an Except error value; the
distinct throw sites of the source are mapped to the distinct DocError
constructors.  JSON trees are modelled by an inductive tree; field
order follows assignment order in the source and serialization to text
is out of scope.
-/

/-- DocTagType from the source header: the lastTag state of the parser. -/
inductive DocTagType
  | None
  | Dev
  | Notice
  | Param
  | Return
  | Author
  | Title
  deriving DecidableEq

/-- CommentOwner: which language construct the parsed comment belongs to. -/
inductive CommentOwner
  | Contract
  | Function
  deriving DecidableEq

/-- The error taxonomy of the subsystem, one constructor per throw-site kind:
MalformedTag (tag marker or param separator missing), UnknownTag,
IllegalTagForContext (title on a function owner), ParamNameMismatch
(documented parameter not in the parameter list) and
InternalInvariantViolation (solAssert / InternalCompilerError sites). -/
inductive DocError
  | MalformedTag
  | UnknownTag
  | IllegalTagForContext
  | ParamNameMismatch
  | InternalInvariantViolation
  deriving DecidableEq

/-- The mutable members of InterfaceHandler: the doc buffers and lastTag. -/
structure HandlerState where
  m_notice : String
  m_dev : String
  m_return : String
  m_contractAuthor : String
  m_author : String
  m_title : String
  m_params : List (String × String)
  m_lastTag : DocTagType
  deriving DecidableEq

/-- The constructor InterfaceHandler::InterfaceHandler: lastTag := None,
all buffers default-initialized empty. -/
def initState : HandlerState := ⟨"", "", "", "", "", "", [], DocTagType.None⟩

/-- InterfaceHandler::resetUser: clears only m_notice. -/
def resetUser (st : HandlerState) : HandlerState := { st with m_notice := "" }

/-- InterfaceHandler::resetDev: clears m_dev, m_author, m_return, m_params. -/
def resetDev (st : HandlerState) : HandlerState :=
  { st with m_dev := "", m_author := "", m_return := "", m_params := [] }

/-- Selector for the string buffer passed by reference to parseDocTagLine. -/
inductive DocField
  | notice
  | dev
  | ret
  | contractAuthor
  | author
  | title
  deriving DecidableEq

def HandlerState.getField (st : HandlerState) : DocField → String
  | .notice => st.m_notice
  | .dev => st.m_dev
  | .ret => st.m_return
  | .contractAuthor => st.m_contractAuthor
  | .author => st.m_author
  | .title => st.m_title

def HandlerState.setField (st : HandlerState) : DocField → String → HandlerState
  | .notice, s => { st with m_notice := s }
  | .dev, s => { st with m_dev := s }
  | .ret, s => { st with m_return := s }
  | .contractAuthor, s => { st with m_contractAuthor := s }
  | .author, s => { st with m_author := s }
  | .title, s => { st with m_title := s }

/-- The predicate of firstSpaceOrNl in the source. -/
def isSpaceOrNl (c : Char) : Bool := c == ' ' || c == '\n'

/-- The C++ guard _pos < _end && *_pos != ' ' on the incoming text. -/
def headNotSpace : List Char → Bool
  | [] => false
  | c :: _ => c != ' '

/-- InterfaceHandler::parseDocTagLine: append the current line (up to the
next newline) to the selected buffer, inserting one space first when
appending a continuation that does not itself start with a space; set
m_lastTag; return past the newline (or the empty suffix at end). -/
def parseDocTagLine (st : HandlerState) (pos : List Char) (field : DocField)
    (tagType : DocTagType) (appending : Bool) : HandlerState × List Char :=
  let s := st.getField field
  let s := if appending && headNotSpace pos then s ++ " " else s
  let s := s ++ String.mk (pos.takeWhile (· != '\n'))
  ({ st.setField field s with m_lastTag := tagType }, (pos.dropWhile (· != '\n')).tail)

/-- InterfaceHandler::parseDocTagParam: the param name runs to the first
space anywhere in the remaining input (no space at all → MalformedTag),
the description is the rest of that line; pushes the pair and sets
m_lastTag := Param. -/
def parseDocTagParam (st : HandlerState) (pos : List Char) :
    Except DocError (HandlerState × List Char) :=
  if (pos.dropWhile (· != ' ')) = [] then .error .MalformedTag
  else
    let paramName := String.mk (pos.takeWhile (· != ' '))
    let afterSpace := (pos.dropWhile (· != ' ')).tail
    let paramDesc := String.mk (afterSpace.takeWhile (· != '\n'))
    .ok ({ st with m_params := st.m_params ++ [(paramName, paramDesc)],
                   m_lastTag := DocTagType.Param },
         (afterSpace.dropWhile (· != '\n')).tail)

/-- InterfaceHandler::appendDocTagParam: continuation of a param tag
appends (with the single-space rule) to the most recently pushed pair;
the solAssert on an empty m_params becomes InternalInvariantViolation. -/
def appendDocTagParam (st : HandlerState) (pos : List Char) :
    Except DocError (HandlerState × List Char) :=
  match st.m_params.getLast? with
  | none => .error .InternalInvariantViolation
  | some pair =>
    let d := if headNotSpace pos then pair.2 ++ " " else pair.2
    let d := d ++ String.mk (pos.takeWhile (· != '\n'))
    .ok ({ st with m_params := st.m_params.dropLast ++ [(pair.1, d)] },
         (pos.dropWhile (· != '\n')).tail)

/-- InterfaceHandler::appendDocTag: dispatch a continuation line on
m_lastTag.  With the two owners of the source, Author continues the
contract-author (Contract owner) or the function-author (Function
owner); Title with a Function owner throws; the default case is the
InternalCompilerError site. -/
def appendDocTag (st : HandlerState) (pos : List Char) (owner : CommentOwner) :
    Except DocError (HandlerState × List Char) :=
  match st.m_lastTag with
  | .Dev => .ok (parseDocTagLine st pos .dev .Dev true)
  | .Notice => .ok (parseDocTagLine st pos .notice .Notice true)
  | .Return => .ok (parseDocTagLine st pos .ret .Return true)
  | .Author =>
    match owner with
    | .Contract => .ok (parseDocTagLine st pos .contractAuthor .Author true)
    | .Function => .ok (parseDocTagLine st pos .author .Author true)
  | .Title =>
    match owner with
    | .Contract => .ok (parseDocTagLine st pos .title .Title true)
    | .Function => .error .IllegalTagForContext
  | .Param => appendDocTagParam st pos
  | .None => .error .InternalInvariantViolation

/-- InterfaceHandler::parseDocTag: when no tag is active or a (non-empty)
tag name was found, dispatch on the tag name; author is legal for both
owners (contract-author slot for Contract, function-author slot for
Function), title only for Contract; otherwise continue the last tag. -/
def parseDocTag (st : HandlerState) (pos : List Char) (tag : String)
    (owner : CommentOwner) : Except DocError (HandlerState × List Char) :=
  if st.m_lastTag = DocTagType.None ∨ tag ≠ "" then
    if tag = "dev" then .ok (parseDocTagLine st pos .dev .Dev false)
    else if tag = "notice" then .ok (parseDocTagLine st pos .notice .Notice false)
    else if tag = "return" then .ok (parseDocTagLine st pos .ret .Return false)
    else if tag = "author" then
      match owner with
      | .Contract => .ok (parseDocTagLine st pos .contractAuthor .Author false)
      | .Function => .ok (parseDocTagLine st pos .author .Author false)
    else if tag = "title" then
      match owner with
      | .Contract => .ok (parseDocTagLine st pos .title .Title false)
      | .Function => .error .IllegalTagForContext
    else if tag = "param" then parseDocTagParam st pos
    else .error .UnknownTag
  else appendDocTag st pos owner

theorem length_tail_le (l : List Char) : l.tail.length ≤ l.length := by
  cases l <;> simp

theorem length_tail_lt (l : List Char) (h : l ≠ []) : l.tail.length < l.length := by
  cases l
  · exact absurd rfl h
  · simp

theorem length_dropWhile_le (p : Char → Bool) (l : List Char) :
    (l.dropWhile p).length ≤ l.length := by
  induction l with
  | nil => simp
  | cons c cs ih =>
    by_cases h : p c
    · simp [List.dropWhile, h]; omega
    · simp [List.dropWhile, h]

theorem length_tail_dropWhile_lt (p : Char → Bool) (l : List Char) (h : l ≠ []) :
    ((l.dropWhile p).tail).length < l.length := by
  have h1 := length_dropWhile_le p l
  have h3 : 0 < l.length := List.length_pos.mpr h
  rcases hd : l.dropWhile p with _ | ⟨c, cs⟩
  · simpa using h3
  · rw [hd] at h1; simp at h1 ⊢; omega

theorem parseDocTagLine_rest (st : HandlerState) (pos : List Char) (field : DocField)
    (tagType : DocTagType) (appending : Bool) :
    (parseDocTagLine st pos field tagType appending).2 = (pos.dropWhile (· != '\n')).tail := rfl

theorem parseDocTagParam_rest_lt (st : HandlerState) (pos : List Char)
    (st' : HandlerState) (rest : List Char)
    (h : parseDocTagParam st pos = .ok (st', rest)) : rest.length < pos.length := by
  unfold parseDocTagParam at h
  by_cases hd : (pos.dropWhile (· != ' ')) = []
  · simp [hd] at h
  · simp only [hd, if_neg, ite_false, Except.ok.injEq, Prod.mk.injEq] at h
    obtain ⟨-, h2⟩ := h
    have h1 := length_dropWhile_le (· != '\n') ((pos.dropWhile (· != ' ')).tail)
    have h4 := length_tail_le (((pos.dropWhile (· != ' ')).tail).dropWhile (· != '\n'))
    have h2' : ((pos.dropWhile (· != ' ')).tail).length < (pos.dropWhile (· != ' ')).length := by
      rcases he : pos.dropWhile (· != ' ') with _ | ⟨c, cs⟩
      · exact absurd he hd
      · simp
    have h3 := length_dropWhile_le (· != ' ') pos
    subst h2
    omega

theorem appendDocTagParam_rest (st : HandlerState) (pos : List Char)
    (st' : HandlerState) (rest : List Char)
    (h : appendDocTagParam st pos = .ok (st', rest)) :
    rest = (pos.dropWhile (· != '\n')).tail := by
  unfold appendDocTagParam at h
  rcases hl : st.m_params.getLast? with _ | p
  · simp [hl] at h
  · simp [hl] at h
    exact h.2.symm

theorem parseDocTag_rest_le (st : HandlerState) (pos : List Char) (tag : String)
    (owner : CommentOwner) (st' : HandlerState) (rest : List Char)
    (h : parseDocTag st pos tag owner = .ok (st', rest)) : rest.length ≤ pos.length := by
  have hA := length_dropWhile_le (· != '\n') pos
  have hB := length_tail_le (pos.dropWhile (· != '\n'))
  unfold parseDocTag appendDocTag at h
  repeat' split at h
  all_goals
    first
    | exact le_of_lt (parseDocTagParam_rest_lt _ _ _ _ h)
    | (have h2 := appendDocTagParam_rest _ _ _ _ h; subst h2; omega)
    | (simp only [parseDocTagLine, Except.ok.injEq, Prod.mk.injEq] at h;
       obtain ⟨-, h2⟩ := h; subst h2; omega)
    | simp at h

theorem parseDocTag_rest_lt (st : HandlerState) (pos : List Char) (tag : String)
    (owner : CommentOwner) (st' : HandlerState) (rest : List Char)
    (h : parseDocTag st pos tag owner = .ok (st', rest)) (hpos : pos ≠ []) :
    rest.length < pos.length := by
  have hA := length_tail_dropWhile_lt (· != '\n') pos hpos
  unfold parseDocTag appendDocTag at h
  repeat' split at h
  all_goals
    first
    | exact parseDocTagParam_rest_lt _ _ _ _ h
    | (have h2 := appendDocTagParam_rest _ _ _ _ h; subst h2; omega)
    | (simp only [parseDocTagLine, Except.ok.injEq, Prod.mk.injEq] at h;
       obtain ⟨-, h2⟩ := h; subst h2; omega)
    | simp at h

theorem appendDocTag_rest_lt (st : HandlerState) (pos : List Char)
    (owner : CommentOwner) (st' : HandlerState) (rest : List Char)
    (h : appendDocTag st pos owner = .ok (st', rest)) (hpos : pos ≠ []) :
    rest.length < pos.length := by
  have hA := length_tail_dropWhile_lt (· != '\n') pos hpos
  unfold appendDocTag at h
  repeat' split at h
  all_goals
    first
    | (have h2 := appendDocTagParam_rest _ _ _ _ h; subst h2; omega)
    | (simp only [parseDocTagLine, Except.ok.injEq, Prod.mk.injEq] at h;
       obtain ⟨-, h2⟩ := h; subst h2; omega)
    | simp at h

/-- InterfaceHandler::parseDocString: the scanning loop.  pos is the
remaining suffix of the comment; atStart records whether the cursor is
still at the very beginning of the comment (the currPos == begin check
of the source; every loop-back strictly advances the cursor, so it is
true exactly on the first iteration).  A tag is found when an at-sign
occurs before the next newline; its name runs to the first space or
newline, and reaching the very end of input instead is MalformedTag.
Otherwise a non-tag line continues the active tag, or (at the start)
becomes an implicit notice, or ends the parse / is skipped. -/
def parseDocString (st : HandlerState) (pos : List Char) (owner : CommentOwner)
    (atStart : Bool) : Except DocError HandlerState :=
  match hpos : pos with
  | [] => .ok st
  | _ :: _ =>
    if '@' ∈ pos.takeWhile (· != '\n') then
      if hRA : ((pos.dropWhile (· != '@')).tail.dropWhile (fun ch => !(isSpaceOrNl ch))) = [] then
        .error .MalformedTag
      else
        match hcall : parseDocTag st
            ((pos.dropWhile (· != '@')).tail.dropWhile (fun ch => !(isSpaceOrNl ch))).tail
            (String.mk ((pos.dropWhile (· != '@')).tail.takeWhile (fun ch => !(isSpaceOrNl ch))))
            owner with
        | .error e => .error e
        | .ok (st', rest) => parseDocString st' rest owner false
    else if st.m_lastTag ≠ DocTagType.None then
      match hcall : appendDocTag st pos owner with
      | .error e => .error e
      | .ok (st', rest) => parseDocString st' rest owner false
    else if atStart then
      match hcall : parseDocTag st pos "notice" CommentOwner.Function with
      | .error e => .error e
      | .ok (st', rest) => parseDocString st' rest owner false
    else if '\n' ∈ pos then
      parseDocString st ((pos.dropWhile (· != '\n')).tail) owner false
    else .ok st
termination_by pos.length
decreasing_by
  · have h1 := parseDocTag_rest_le _ _ _ _ _ _ hcall
    have h2 := length_tail_lt ((pos.dropWhile (· != '@')).tail.dropWhile (fun ch => !(isSpaceOrNl ch))) hRA
    have h3 := length_dropWhile_le (fun ch => !(isSpaceOrNl ch)) ((pos.dropWhile (· != '@')).tail)
    have h4 := length_tail_le (pos.dropWhile (· != '@'))
    have h5 := length_dropWhile_le (· != '@') pos
    rw [← hpos]
    omega
  · have h1 := appendDocTag_rest_lt _ _ _ _ _ hcall (by rw [hpos]; simp)
    rw [← hpos]
    omega
  · have h1 := parseDocTag_rest_lt _ _ _ _ _ _ hcall (by rw [hpos]; simp)
    rw [← hpos]
    omega
  · have h1 := length_tail_dropWhile_lt (· != '\n') pos (by rw [hpos]; simp)
    rw [← hpos]
    exact h1

theorem parseDocString_nil (st : HandlerState) (owner : CommentOwner) (atStart : Bool) :
    parseDocString st [] owner atStart = .ok st := by
  rw [parseDocString]

theorem parseDocString_cons_malformed (st : HandlerState) (c : Char) (cs : List Char)
    (owner : CommentOwner) (atStart : Bool)
    (hAt : '@' ∈ (c :: cs).takeWhile (· != '\n'))
    (hRA : ((c :: cs).dropWhile (· != '@')).tail.dropWhile (fun ch => !(isSpaceOrNl ch)) = []) :
    parseDocString st (c :: cs) owner atStart = .error .MalformedTag := by
  rw [parseDocString.eq_def]
  simp [hAt, hRA]

theorem parseDocString_cons_tag (st : HandlerState) (c : Char) (cs : List Char)
    (owner : CommentOwner) (atStart : Bool)
    (hAt : '@' ∈ (c :: cs).takeWhile (· != '\n'))
    (hRA : ((c :: cs).dropWhile (· != '@')).tail.dropWhile (fun ch => !(isSpaceOrNl ch)) ≠ []) :
    parseDocString st (c :: cs) owner atStart =
      match parseDocTag st
          (((c :: cs).dropWhile (· != '@')).tail.dropWhile (fun ch => !(isSpaceOrNl ch))).tail
          (String.mk (((c :: cs).dropWhile (· != '@')).tail.takeWhile (fun ch => !(isSpaceOrNl ch))))
          owner with
      | .error e => .error e
      | .ok (st', rest) => parseDocString st' rest owner false := by
  rw [parseDocString.eq_def]
  simp [hAt, hRA]
  cases hX : parseDocTag st
      (((c :: cs).dropWhile (· != '@')).tail.dropWhile (fun ch => !(isSpaceOrNl ch))).tail
      (String.mk (((c :: cs).dropWhile (· != '@')).tail.takeWhile (fun ch => !(isSpaceOrNl ch))))
      owner with
  | error e => rfl
  | ok p => obtain ⟨s2, r2⟩ := p; rfl

theorem parseDocString_cons_cont (st : HandlerState) (c : Char) (cs : List Char)
    (owner : CommentOwner) (atStart : Bool)
    (hAt : '@' ∉ (c :: cs).takeWhile (· != '\n'))
    (hTag : st.m_lastTag ≠ DocTagType.None) :
    parseDocString st (c :: cs) owner atStart =
      match appendDocTag st (c :: cs) owner with
      | .error e => .error e
      | .ok (st', rest) => parseDocString st' rest owner false := by
  rw [parseDocString.eq_def]
  simp [hAt, hTag]
  cases hX : appendDocTag st (c :: cs) owner with
  | error e => rfl
  | ok p => obtain ⟨s2, r2⟩ := p; rfl

theorem parseDocString_cons_start (st : HandlerState) (c : Char) (cs : List Char)
    (owner : CommentOwner)
    (hAt : '@' ∉ (c :: cs).takeWhile (· != '\n'))
    (hTag : st.m_lastTag = DocTagType.None) :
    parseDocString st (c :: cs) owner true =
      match parseDocTag st (c :: cs) "notice" CommentOwner.Function with
      | .error e => .error e
      | .ok (st', rest) => parseDocString st' rest owner false := by
  rw [parseDocString.eq_def]
  simp [hAt, hTag]
  cases hX : parseDocTag st (c :: cs) "notice" CommentOwner.Function with
  | error e => rfl
  | ok p => obtain ⟨s2, r2⟩ := p; rfl

theorem parseDocString_cons_skip (st : HandlerState) (c : Char) (cs : List Char)
    (owner : CommentOwner)
    (hAt : '@' ∉ (c :: cs).takeWhile (· != '\n'))
    (hTag : st.m_lastTag = DocTagType.None)
    (hNl : '\n' ∈ (c :: cs)) :
    parseDocString st (c :: cs) owner false =
      parseDocString st (((c :: cs).dropWhile (· != '\n')).tail) owner false := by
  rw [parseDocString.eq_def]
  simp [hAt, hTag, hNl]

theorem parseDocString_cons_stop (st : HandlerState) (c : Char) (cs : List Char)
    (owner : CommentOwner)
    (hAt : '@' ∉ (c :: cs).takeWhile (· != '\n'))
    (hTag : st.m_lastTag = DocTagType.None)
    (hNl : '\n' ∉ (c :: cs)) :
    parseDocString st (c :: cs) owner false = .ok st := by
  rw [parseDocString.eq_def]
  simp [hAt, hTag, hNl]

/-- Fuel-indexed twin of parseDocString with the same branch structure,
structurally recursive on the fuel; parseDocString_eq_fuel shows it
computes the same result whenever the fuel exceeds the input length.
It exists only to evaluate concrete runs of the parser. -/
def parseDocStringFuel : Nat → HandlerState → List Char → CommentOwner → Bool →
    Except DocError HandlerState
  | 0, st, _, _, _ => .ok st
  | fuel + 1, st, pos, owner, atStart =>
    match pos with
    | [] => .ok st
    | c :: cs =>
      if '@' ∈ (c :: cs).takeWhile (· != '\n') then
        if ((c :: cs).dropWhile (· != '@')).tail.dropWhile (fun ch => !(isSpaceOrNl ch)) = [] then
          .error .MalformedTag
        else
          match parseDocTag st
              (((c :: cs).dropWhile (· != '@')).tail.dropWhile (fun ch => !(isSpaceOrNl ch))).tail
              (String.mk (((c :: cs).dropWhile (· != '@')).tail.takeWhile (fun ch => !(isSpaceOrNl ch))))
              owner with
          | .error e => .error e
          | .ok (st', rest) => parseDocStringFuel fuel st' rest owner false
      else if st.m_lastTag ≠ DocTagType.None then
        match appendDocTag st (c :: cs) owner with
        | .error e => .error e
        | .ok (st', rest) => parseDocStringFuel fuel st' rest owner false
      else if atStart then
        match parseDocTag st (c :: cs) "notice" CommentOwner.Function with
        | .error e => .error e
        | .ok (st', rest) => parseDocStringFuel fuel st' rest owner false
      else if '\n' ∈ (c :: cs) then
        parseDocStringFuel fuel st (((c :: cs).dropWhile (· != '\n')).tail) owner false
      else .ok st

theorem parseDocString_eq_fuel : ∀ (fuel : Nat) (pos : List Char) (st : HandlerState)
    (owner : CommentOwner) (atStart : Bool), pos.length < fuel →
    parseDocString st pos owner atStart = parseDocStringFuel fuel st pos owner atStart := by
  intro fuel
  induction fuel with
  | zero => intro pos st o a h; exact absurd h (Nat.not_lt_zero _)
  | succ n ih =>
    intro pos st o a h
    match pos with
    | [] => rw [parseDocString_nil]; rfl
    | c :: cs =>
      have hcc : (c :: cs).length = cs.length + 1 := rfl
      rw [hcc] at h
      by_cases hAt : '@' ∈ (c :: cs).takeWhile (· != '\n')
      · by_cases hRA : ((c :: cs).dropWhile (· != '@')).tail.dropWhile (fun ch => !(isSpaceOrNl ch)) = []
        · rw [parseDocString_cons_malformed st c cs o a hAt hRA]
          simp [parseDocStringFuel, hAt, hRA]
        · rw [parseDocString_cons_tag st c cs o a hAt hRA]
          cases hX : parseDocTag st
              (((c :: cs).dropWhile (· != '@')).tail.dropWhile (fun ch => !(isSpaceOrNl ch))).tail
              (String.mk (((c :: cs).dropWhile (· != '@')).tail.takeWhile (fun ch => !(isSpaceOrNl ch))))
              o with
          | error e => simp [parseDocStringFuel, hAt, hRA, hX]
          | ok p =>
            obtain ⟨s2, r2⟩ := p
            have hlen : r2.length < n := by
              have h1 := parseDocTag_rest_le _ _ _ _ _ _ hX
              have h2 := length_tail_lt _ hRA
              have h3 := length_dropWhile_le (fun ch => !(isSpaceOrNl ch)) (((c :: cs).dropWhile (· != '@')).tail)
              have h4 := length_tail_le ((c :: cs).dropWhile (· != '@'))
              have h5 := length_dropWhile_le (· != '@') (c :: cs)
              rw [hcc] at h5
              omega
            have hred : parseDocString s2 r2 o false = parseDocStringFuel n s2 r2 o false :=
              ih _ _ _ _ hlen
            simp [parseDocStringFuel, hAt, hRA, hX, hred]
      · by_cases hTag : st.m_lastTag = DocTagType.None
        · cases a with
          | true =>
            rw [parseDocString_cons_start st c cs o hAt hTag]
            cases hX : parseDocTag st (c :: cs) "notice" CommentOwner.Function with
            | error e => simp [parseDocStringFuel, hAt, hTag, hX]
            | ok p =>
              obtain ⟨s2, r2⟩ := p
              have hlen : r2.length < n := by
                have h1 := parseDocTag_rest_lt _ _ _ _ _ _ hX (by simp)
                rw [hcc] at h1
                omega
              have hred : parseDocString s2 r2 o false = parseDocStringFuel n s2 r2 o false :=
                ih _ _ _ _ hlen
              simp [parseDocStringFuel, hAt, hTag, hX, hred]
          | false =>
            by_cases hNl : '\n' ∈ (c :: cs)
            · rw [parseDocString_cons_skip st c cs o hAt hTag hNl]
              have hlen : (((c :: cs).dropWhile (· != '\n')).tail).length < n := by
                have h1 := length_tail_dropWhile_lt (· != '\n') (c :: cs) (by simp)
                rw [hcc] at h1
                omega
              rw [ih _ _ _ _ hlen]
              simp [parseDocStringFuel, hAt, hTag, hNl]
            · rw [parseDocString_cons_stop st c cs o hAt hTag hNl]
              simp [parseDocStringFuel, hAt, hTag, hNl]
        · rw [parseDocString_cons_cont st c cs o a hAt hTag]
          cases hX : appendDocTag st (c :: cs) o with
          | error e => simp [parseDocStringFuel, hAt, hTag, hX]
          | ok p =>
            obtain ⟨s2, r2⟩ := p
            have hlen : r2.length < n := by
              have h1 := appendDocTag_rest_lt _ _ _ _ _ hX (by simp)
              rw [hcc] at h1
              omega
            have hred : parseDocString s2 r2 o false = parseDocStringFuel n s2 r2 o false :=
              ih _ _ _ _ hlen
            simp [parseDocStringFuel, hAt, hTag, hX, hred]

/-- Evaluation corollary: parseDocString computes as its fuel twin with
fuel = length + 1. -/
theorem parseDocString_eval (st : HandlerState) (pos : List Char) (owner : CommentOwner)
    (atStart : Bool) :
    parseDocString st pos owner atStart = parseDocStringFuel (pos.length + 1) st pos owner atStart :=
  parseDocString_eq_fuel _ _ _ _ _ (Nat.lt_succ_self _)

/-- JSON-like tree (the opaque structured-value builder of the source:
objects, arrays, strings, booleans).  Object fields are kept in
assignment order; serialization to text is out of scope. -/
inductive Json
  | str (s : String)
  | bool (b : Bool)
  | arr (elems : List Json)
  | obj (fields : List (String × Json))

/-- Interface view of a function (ContractDefinition::interfaceFunctions
entries): external name, constant flag, parameter and return name/type
lists, external call signature and the optional raw comment. -/
structure FunctionDescriptor where
  name : String
  isConstant : Bool
  paramNames : List String
  paramTypes : List String
  returnParamNames : List String
  returnParamTypes : List String
  externalSignature : String
  documentation : Option String

/-- The constructor as seen through FunctionType(...).interfaceFunctionType:
only its parameter lists are consumed by the renderers. -/
structure CtorDescriptor where
  paramNames : List String
  paramTypes : List String

/-- One event parameter: name, canonical type name, indexed flag. -/
structure EventParam where
  name : String
  typeName : String
  isIndexed : Bool

/-- Interface view of an event. -/
structure EventDescriptor where
  name : String
  isAnonymous : Bool
  parameters : List EventParam

/-- A struct member (name and canonical type name) of a library struct. -/
structure StructMember where
  typeName : String
  name : String

/-- A struct definition of a library. -/
structure StructDescriptor where
  name : String
  members : List StructMember

/-- An enum definition of a library. -/
structure EnumDescriptor where
  name : String
  members : List String

/-- Read-only view of a ContractDefinition as consumed by the renderers. -/
structure ContractDescriptor where
  name : String
  isLibrary : Bool
  documentation : Option String
  ctor : Option CtorDescriptor
  interfaceFunctions : List FunctionDescriptor
  interfaceEvents : List EventDescriptor
  definedStructs : List StructDescriptor
  definedEnums : List EnumDescriptor

/-- The populateParameters lambda of abiInterface: the name and type lists
are zipped into (name, type) objects; the solAssert on a length mismatch
becomes InternalInvariantViolation. -/
def populateParametersAbi (ns ts : List String) : Except DocError Json :=
  if ns.length = ts.length then
    .ok (Json.arr ((ns.zip ts).map fun p => Json.obj [("name", .str p.1), ("type", .str p.2)]))
  else .error .InternalInvariantViolation

/-- The per-function ABI entry as built by abiInterface (well-defined when
the name/type lists have equal length, which success of abiInterface
guarantees). -/
def abiFunctionEntry (f : FunctionDescriptor) : Json :=
  Json.obj [("type", .str "function"), ("name", .str f.name), ("constant", .bool f.isConstant),
    ("inputs", Json.arr ((f.paramNames.zip f.paramTypes).map fun p =>
      Json.obj [("name", .str p.1), ("type", .str p.2)])),
    ("outputs", Json.arr ((f.returnParamNames.zip f.returnParamTypes).map fun p =>
      Json.obj [("name", .str p.1), ("type", .str p.2)]))]

/-- The constructor ABI entry: type and inputs only. -/
def abiCtorEntry (k : CtorDescriptor) : Json :=
  Json.obj [("type", .str "constructor"),
    ("inputs", Json.arr ((k.paramNames.zip k.paramTypes).map fun p =>
      Json.obj [("name", .str p.1), ("type", .str p.2)]))]

/-- The constructor part of the entry list as a function of the optional
constructor: one entry when present, none otherwise. -/
def ctorEntryList : Option CtorDescriptor → List Json
  | some k => [abiCtorEntry k]
  | none => []

/-- The per-event ABI entry: type, name, anonymous flag and the
(name, type, indexed) input triples. -/
def abiEventEntry (e : EventDescriptor) : Json :=
  Json.obj [("type", .str "event"), ("name", .str e.name), ("anonymous", .bool e.isAnonymous),
    ("inputs", Json.arr (e.parameters.map fun p =>
      Json.obj [("name", .str p.name), ("type", .str p.typeName), ("indexed", .bool p.isIndexed)]))]

/-- The function-entry loop of abiInterface, in declared order. -/
def abiFunctionEntries : List FunctionDescriptor → Except DocError (List Json)
  | [] => .ok []
  | f :: fs =>
    match populateParametersAbi f.paramNames f.paramTypes with
    | .error e => .error e
    | .ok ins =>
      match populateParametersAbi f.returnParamNames f.returnParamTypes with
      | .error e => .error e
      | .ok outs =>
        match abiFunctionEntries fs with
        | .error e => .error e
        | .ok rest =>
          .ok (Json.obj [("type", .str "function"), ("name", .str f.name),
            ("constant", .bool f.isConstant), ("inputs", ins), ("outputs", outs)] :: rest)

/-- The constructor-entry part of abiInterface: one entry with type and
inputs only when a constructor exists (its solAssert on the external
function type's parameter lists is the populateParameters assert). -/
def abiCtorEntries : Option CtorDescriptor → Except DocError (List Json)
  | none => .ok []
  | some k =>
    match populateParametersAbi k.paramNames k.paramTypes with
    | .error e => .error e
    | .ok ins => .ok [Json.obj [("type", .str "constructor"), ("inputs", ins)]]

/-- InterfaceHandler::abiInterface: function entries in declared order,
then the constructor entry if a constructor exists, then event entries
in declared order. -/
def abiInterface (c : ContractDescriptor) : Except DocError Json :=
  match abiFunctionEntries c.interfaceFunctions with
  | .error e => .error e
  | .ok fnEntries =>
    match abiCtorEntries c.ctor with
    | .error e => .error e
    | .ok ctorEntries =>
      .ok (Json.arr (fnEntries ++ ctorEntries ++ c.interfaceEvents.map abiEventEntry))

/-- Left-to-right concatenation of rendered fragments (the += loop of the
renderer). -/
def strConcat : List String → String
  | [] => ""
  | s :: t => s ++ strConcat t

/-- std::string::pop_back as used by the renderer (only ever called on a
nonempty accumulated string in the source). -/
def strPopBack (s : String) : String := String.mk s.toList.dropLast

/-- The last character of the accumulated string, if any (the back()
calls of the source are always on a nonempty accumulator whose most
recently appended fragment is nonempty, so checking the fragment's own
last character is equivalent). -/
def strLast? (s : String) : Option Char := s.toList.getLast?

/-- The populateParameters lambda of ABISolidityInterface: open
parenthesis, "type name," per parameter, drop the trailing comma when
at least one parameter was emitted (accumulated size different from 1),
close parenthesis. -/
def populateParametersSol (ns ts : List String) : String :=
  let r := "(" ++ strConcat ((ns.zip ts).map fun p => p.2 ++ " " ++ p.1 ++ ",")
  let r := if r.length ≠ 1 then strPopBack r else r
  r ++ ")"

/-- One struct definition line of the library header of
ABISolidityInterface. -/
def renderStruct (s : StructDescriptor) : String :=
  "struct " ++ s.name ++ "\x7b" ++
    strConcat (s.members.map fun m => m.typeName ++ " " ++ m.name ++ ";") ++ "\x7d"

/-- One enum definition line: values comma-separated, the trailing comma
popped when the accumulator's back is a comma (i.e. at least one value). -/
def renderEnum (e : EnumDescriptor) : String :=
  let r := "enum " ++ e.name ++ "\x7b" ++ strConcat (e.members.map fun v => v ++ ",")
  let r := if strLast? r = some ',' then strPopBack r else r
  r ++ "\x7d"

/-- One interface-function fragment of ABISolidityInterface: name and
parameter list, then "constant " when constant, then the returns clause
when return parameter types exist, otherwise pop the trailing space the
constant keyword left (the back() check of the source; the accumulated
string ends with this fragment's last character since the fragment is
nonempty). -/
def renderFunction (f : FunctionDescriptor) : String :=
  let r := "function " ++ f.name ++ populateParametersSol f.paramNames f.paramTypes ++
    (if f.isConstant then "constant " else "")
  let r :=
    if f.returnParamTypes.length ≠ 0 then
      r ++ "returns" ++ populateParametersSol f.returnParamNames f.returnParamTypes
    else if strLast? r = some ' ' then strPopBack r
    else r
  r ++ ";"

/-- The part of ABISolidityInterface before the interface functions:
contract/library keyword and name, the library-only struct and enum
definitions, and the constructor line when a constructor exists. -/
def interfaceHeader (c : ContractDescriptor) : String :=
  (if c.isLibrary then "library " else "contract ") ++ c.name ++ "\x7b" ++
  (if c.isLibrary then
    strConcat (c.definedStructs.map renderStruct) ++
    strConcat (c.definedEnums.map renderEnum)
   else "") ++
  (match c.ctor with
   | some k => "function " ++ c.name ++ populateParametersSol k.paramNames k.paramTypes ++ ";"
   | none => "")

/-- InterfaceHandler::ABISolidityInterface: header, library struct/enum
definitions, constructor line, interface functions in declared order,
closing brace. -/
def ABISolidityInterface (c : ContractDescriptor) : String :=
  interfaceHeader c ++ strConcat (c.interfaceFunctions.map renderFunction) ++ "\x7d"

/-- The body of the per-function loop of userDocumentation: skip a
function without raw comment; otherwise resetUser, parse with owner
Function, and emit a notice entry keyed by the external signature only
when the parsed notice is non-empty. -/
def userDocStep (st : HandlerState) (f : FunctionDescriptor) :
    Except DocError (HandlerState × List (String × Json)) :=
  match f.documentation with
  | none => .ok (st, [])
  | some d =>
    match parseDocString (resetUser st) d.toList CommentOwner.Function true with
    | .error e => .error e
    | .ok st' =>
      if st'.m_notice ≠ "" then
        .ok (st', [(f.externalSignature, Json.obj [("notice", Json.str st'.m_notice)])])
      else .ok (st', [])

/-- The per-function loop of userDocumentation over the declared order,
threading the shared parser state. -/
def userDocMethods (st : HandlerState) : List FunctionDescriptor →
    Except DocError (HandlerState × List (String × Json))
  | [] => .ok (st, [])
  | f :: fs =>
    match userDocStep st f with
    | .error e => .error e
    | .ok (st', entry) =>
      match userDocMethods st' fs with
      | .error e => .error e
      | .ok (st'', entries) => .ok (st'', entry ++ entries)

/-- InterfaceHandler::userDocumentation: the methods map under the
"methods" key. -/
def userDocumentation (st : HandlerState) (c : ContractDescriptor) :
    Except DocError Json :=
  match userDocMethods st c.interfaceFunctions with
  | .error e => .error e
  | .ok (_, methods) => .ok (Json.obj [("methods", Json.obj methods)])

/-- The parameter-check loop of devDocumentation: each parsed pair whose
name is not among the function's parameter names aborts with
ParamNameMismatch (DocstringParsingError in the source); otherwise the
pair becomes a params entry. -/
def checkParams (paramNames : List String) : List (String × String) →
    Except DocError (List (String × Json))
  | [] => .ok []
  | (n, d) :: rest =>
    if n ∈ paramNames then
      match checkParams paramNames rest with
      | .error e => .error e
      | .ok r => .ok ((n, Json.str d) :: r)
    else .error .ParamNameMismatch

/-- The body of the per-function loop of devDocumentation: skip a
function without raw comment; otherwise resetDev, parse with owner
Function, check the documented parameter names, and emit a method record
with the non-empty fields among details, author, params, return, keyed
by the external signature, only when at least one field is present. -/
def devDocStep (st : HandlerState) (f : FunctionDescriptor) :
    Except DocError (HandlerState × List (String × Json)) :=
  match f.documentation with
  | none => .ok (st, [])
  | some d =>
    match parseDocString (resetDev st) d.toList CommentOwner.Function true with
    | .error e => .error e
    | .ok st' =>
      match checkParams f.paramNames st'.m_params with
      | .error e => .error e
      | .ok params =>
        let method :=
          (if st'.m_dev ≠ "" then [("details", Json.str st'.m_dev)] else []) ++
          (if st'.m_author ≠ "" then [("author", Json.str st'.m_author)] else []) ++
          (if st'.m_params ≠ [] then [("params", Json.obj params)] else []) ++
          (if st'.m_return ≠ "" then [("return", Json.str st'.m_return)] else [])
        if method.isEmpty then .ok (st', [])
        else .ok (st', [(f.externalSignature, Json.obj method)])

/-- The per-function loop of devDocumentation over the declared order. -/
def devDocMethods (st : HandlerState) : List FunctionDescriptor →
    Except DocError (HandlerState × List (String × Json))
  | [] => .ok (st, [])
  | f :: fs =>
    match devDocStep st f with
    | .error e => .error e
    | .ok (st', entry) =>
      match devDocMethods st' fs with
      | .error e => .error e
      | .ok (st'', entries) => .ok (st'', entry ++ entries)

/-- The contract-comment stage of devDocumentation: clear the
contract-author and title buffers, parse with owner Contract, and emit
the top-level author/title fields that are non-empty. -/
def devDocHeader (st : HandlerState) (c : ContractDescriptor) :
    Except DocError (HandlerState × List (String × Json)) :=
  match c.documentation with
  | none => .ok (st, [])
  | some d =>
    match parseDocString { st with m_contractAuthor := "", m_title := "" } d.toList
        CommentOwner.Contract true with
    | .error e => .error e
    | .ok st' =>
      .ok (st',
        (if st'.m_contractAuthor ≠ "" then [("author", Json.str st'.m_contractAuthor)] else []) ++
        (if st'.m_title ≠ "" then [("title", Json.str st'.m_title)] else []))

/-- InterfaceHandler::devDocumentation: contract-level author/title, then
the methods map. -/
def devDocumentation (st : HandlerState) (c : ContractDescriptor) :
    Except DocError Json :=
  match devDocHeader st c with
  | .error e => .error e
  | .ok (st1, header) =>
    match devDocMethods st1 c.interfaceFunctions with
    | .error e => .error e
    | .ok (_, methods) =>
      .ok (Json.obj (header ++ [("methods", Json.obj methods)]))

theorem dropWhile_ne_eq_nil_iff (c : Char) (l : List Char) :
    l.dropWhile (· != c) = [] ↔ c ∉ l := by
  induction l with
  | nil => simp
  | cons a t ih =>
    by_cases ha : a = c
    · subst ha
      simp [List.dropWhile_cons]
    · simp [List.dropWhile_cons, ha, ih]
      exact fun _ e => ha e.symm

theorem takeWhile_ne_of_not_mem (c : Char) (l2 : List Char) :
    ∀ (l1 : List Char), c ∉ l1 → (l1 ++ c :: l2).takeWhile (· != c) = l1 := by
  intro l1
  induction l1 with
  | nil => intro _; simp [List.takeWhile_cons]
  | cons a t ih =>
    intro h
    have ha : a ≠ c := fun e => h (by simp [e])
    have hr : c ∉ t := fun m => h (List.mem_cons_of_mem _ m)
    simp only [List.cons_append, List.takeWhile_cons]
    simp [ha, ih hr]

theorem dropWhile_ne_of_not_mem (c : Char) (l2 : List Char) :
    ∀ (l1 : List Char), c ∉ l1 → (l1 ++ c :: l2).dropWhile (· != c) = c :: l2 := by
  intro l1
  induction l1 with
  | nil => intro _; simp [List.dropWhile_cons]
  | cons a t ih =>
    intro h
    have ha : a ≠ c := fun e => h (by simp [e])
    have hr : c ∉ t := fun m => h (List.mem_cons_of_mem _ m)
    simp only [List.cons_append, List.dropWhile_cons]
    simp [ha, ih hr]

theorem takeWhile_ne_all (c : Char) (l : List Char) (h : c ∉ l) :
    l.takeWhile (· != c) = l := by
  induction l with
  | nil => simp
  | cons a t ih =>
    have ha : a ≠ c := fun e => h (by simp [e])
    have hr : c ∉ t := fun m => h (List.mem_cons_of_mem _ m)
    simp [List.takeWhile_cons, ha, ih hr]

theorem not_mem_takeWhile_of_not_mem (c : Char) (p : Char → Bool) (l : List Char)
    (h : c ∉ l) : c ∉ l.takeWhile p :=
  fun m => h ((List.takeWhile_sublist p).subset m)

/-- C6: Neither buffer-reset operation changes the lastTag field: resetUser
clears only the notice buffer and resetDev clears only details, author,
return, and the parameter-pair list; every other field, lastTag included,
keeps its previous value. -/
theorem reset_frame (st : HandlerState) :
    (resetUser st).m_lastTag = st.m_lastTag ∧ (resetDev st).m_lastTag = st.m_lastTag ∧
    (resetUser st).m_notice = "" ∧ (resetUser st).m_dev = st.m_dev ∧
    (resetUser st).m_return = st.m_return ∧
    (resetUser st).m_contractAuthor = st.m_contractAuthor ∧
    (resetUser st).m_author = st.m_author ∧ (resetUser st).m_title = st.m_title ∧
    (resetUser st).m_params = st.m_params ∧
    (resetDev st).m_dev = "" ∧ (resetDev st).m_author = "" ∧ (resetDev st).m_return = "" ∧
    (resetDev st).m_params = [] ∧ (resetDev st).m_notice = st.m_notice ∧
    (resetDev st).m_contractAuthor = st.m_contractAuthor ∧
    (resetDev st).m_title = st.m_title := by
  simp [resetUser, resetDev]

/-- C7 (amended): parsing an author tag with owner Function does not fail;
it dispatches to parseDocTagLine on the function-author buffer, so the
parsed line is appended to m_author (IllegalTagForContext is raised for
the author tag by neither of the two owners of the source; only the
title tag raises it, for owner Function). -/
theorem parseDocTag_author_function (st : HandlerState) (pos : List Char) :
    parseDocTag st pos "author" CommentOwner.Function =
      .ok (parseDocTagLine st pos DocField.author DocTagType.Author false) ∧
    (parseDocTagLine st pos DocField.author DocTagType.Author false).1.m_author =
      st.m_author ++ String.mk (pos.takeWhile (· != '\n')) := by
  constructor
  · unfold parseDocTag
    simp
  · simp [parseDocTagLine, HandlerState.getField, HandlerState.setField]

/-- C7 counterexample: the concrete comment "@author Alice" parsed with
owner Function succeeds (it does not fail with IllegalTagForContext) and
sets the function-author buffer. -/
theorem parseDocString_author_function_ok :
    parseDocString initState ("@author Alice".toList) CommentOwner.Function true =
      .ok { initState with m_author := "Alice", m_lastTag := DocTagType.Author } ∧
    parseDocString initState ("@author Alice".toList) CommentOwner.Function true ≠
      .error DocError.IllegalTagForContext := by
  have h : parseDocString initState ("@author Alice".toList) CommentOwner.Function true =
      .ok { initState with m_author := "Alice", m_lastTag := DocTagType.Author } := by
    rw [parseDocString_eval]
    rfl
  exact ⟨h, by rw [h]; simp⟩

/-- C8: a param tag whose body has no space separator anywhere in the
remaining input fails with MalformedTag; otherwise the name token is the
text up to the first space and the pushed description is the remainder
of that line (up to the next newline). -/
theorem parseDocTagParam_separator (st : HandlerState) (pos : List Char) :
    (' ' ∉ pos → parseDocTagParam st pos = .error DocError.MalformedTag) ∧
    (' ' ∈ pos → parseDocTagParam st pos =
      .ok ({ st with
              m_params := st.m_params ++ [(String.mk (pos.takeWhile (· != ' ')), String.mk (((pos.dropWhile (· != ' ')).tail).takeWhile (· != '\n')))],
              m_lastTag := DocTagType.Param },
           (((pos.dropWhile (· != ' ')).tail).dropWhile (· != '\n')).tail)) := by
  constructor
  · intro h
    unfold parseDocTagParam
    rw [if_pos ((dropWhile_ne_eq_nil_iff ' ' pos).mpr h)]
  · intro h
    unfold parseDocTagParam
    rw [if_neg (fun he => (dropWhile_ne_eq_nil_iff ' ' pos).mp he h)]

/-- C8 witness: a concrete param body without separator fails with
MalformedTag. -/
theorem parseDocTagParam_separator_witness :
    parseDocTagParam initState ("zbad".toList) = .error DocError.MalformedTag :=
  (parseDocTagParam_separator initState ("zbad".toList)).1 (by decide)

/-- Recognizer for the ParamNameMismatch outcome of a fallible step. -/
def isParamNameMismatch {α : Type} : Except DocError α → Bool
  | .error .ParamNameMismatch => true
  | _ => false

/-- Function-extensionality form of the evaluation corollary, used to
compute concrete runs of the documentation renderers. -/
theorem parseDocString_funext :
    parseDocString = fun st pos owner atStart =>
      parseDocStringFuel (pos.length + 1) st pos owner atStart := by
  funext st pos owner atStart
  exact parseDocString_eval st pos owner atStart

theorem isPNM_ok {α : Type} (x : α) :
    isParamNameMismatch (Except.ok x : Except DocError α) = false := rfl

theorem isPNM_error {α : Type} (e : DocError) :
    isParamNameMismatch (Except.error e : Except DocError α) = false ↔
      e ≠ DocError.ParamNameMismatch := by
  cases e <;> simp [isParamNameMismatch]

theorem parseDocTagParam_no_pnm (st : HandlerState) (pos : List Char) :
    isParamNameMismatch (parseDocTagParam st pos) = false := by
  unfold parseDocTagParam
  split <;> rfl

theorem appendDocTagParam_no_pnm (st : HandlerState) (pos : List Char) :
    isParamNameMismatch (appendDocTagParam st pos) = false := by
  unfold appendDocTagParam
  split <;> rfl

theorem appendDocTag_no_pnm (st : HandlerState) (pos : List Char) (owner : CommentOwner) :
    isParamNameMismatch (appendDocTag st pos owner) = false := by
  unfold appendDocTag
  repeat' split
  all_goals first | rfl | exact appendDocTagParam_no_pnm _ _

theorem parseDocTag_no_pnm (st : HandlerState) (pos : List Char) (tag : String)
    (owner : CommentOwner) :
    isParamNameMismatch (parseDocTag st pos tag owner) = false := by
  unfold parseDocTag
  repeat' split
  all_goals first
    | rfl
    | exact parseDocTagParam_no_pnm _ _
    | exact appendDocTag_no_pnm _ _ _

theorem parseDocStringFuel_no_pnm : ∀ (fuel : Nat) (st : HandlerState) (pos : List Char)
    (owner : CommentOwner) (atStart : Bool),
    isParamNameMismatch (parseDocStringFuel fuel st pos owner atStart) = false := by
  intro fuel
  induction fuel with
  | zero => intro st pos o a; rfl
  | succ n ih =>
    intro st pos o a
    match pos with
    | [] => rfl
    | c :: cs =>
      by_cases hAt : '@' ∈ (c :: cs).takeWhile (· != '\n')
      · by_cases hRA : ((c :: cs).dropWhile (· != '@')).tail.dropWhile (fun ch => !(isSpaceOrNl ch)) = []
        · simp [parseDocStringFuel, hAt, hRA, isParamNameMismatch]
        · cases hX : parseDocTag st
              (((c :: cs).dropWhile (· != '@')).tail.dropWhile (fun ch => !(isSpaceOrNl ch))).tail
              (String.mk (((c :: cs).dropWhile (· != '@')).tail.takeWhile (fun ch => !(isSpaceOrNl ch))))
              o with
          | error e =>
            have h := parseDocTag_no_pnm st
              (((c :: cs).dropWhile (· != '@')).tail.dropWhile (fun ch => !(isSpaceOrNl ch))).tail
              (String.mk (((c :: cs).dropWhile (· != '@')).tail.takeWhile (fun ch => !(isSpaceOrNl ch))))
              o
            rw [hX, isPNM_error] at h
            simp [parseDocStringFuel, hAt, hRA, hX, isPNM_error, h]
          | ok p =>
            obtain ⟨s2, r2⟩ := p
            simp [parseDocStringFuel, hAt, hRA, hX, ih]
      · by_cases hTag : st.m_lastTag = DocTagType.None
        · cases a with
          | true =>
            cases hX : parseDocTag st (c :: cs) "notice" CommentOwner.Function with
            | error e =>
              have h := parseDocTag_no_pnm st (c :: cs) "notice" CommentOwner.Function
              rw [hX, isPNM_error] at h
              simp [parseDocStringFuel, hAt, hTag, hX, isPNM_error, h]
            | ok p =>
              obtain ⟨s2, r2⟩ := p
              simp [parseDocStringFuel, hAt, hTag, hX, ih]
          | false =>
            by_cases hNl : '\n' ∈ (c :: cs)
            · simp [parseDocStringFuel, hAt, hTag, hNl, ih]
            · simp [parseDocStringFuel, hAt, hTag, hNl, isParamNameMismatch]
        · cases hX : appendDocTag st (c :: cs) o with
          | error e =>
            have h := appendDocTag_no_pnm st (c :: cs) o
            rw [hX, isPNM_error] at h
            simp [parseDocStringFuel, hAt, hTag, hX, isPNM_error, h]
          | ok p =>
            obtain ⟨s2, r2⟩ := p
            simp [parseDocStringFuel, hAt, hTag, hX, ih]

theorem parseDocString_no_pnm (st : HandlerState) (pos : List Char) (owner : CommentOwner)
    (atStart : Bool) : isParamNameMismatch (parseDocString st pos owner atStart) = false := by
  rw [parseDocString_eval]
  exact parseDocStringFuel_no_pnm _ _ _ _ _

theorem userDocStep_no_pnm (st : HandlerState) (f : FunctionDescriptor) :
    isParamNameMismatch (userDocStep st f) = false := by
  cases hdoc : f.documentation with
  | none => simp [userDocStep, hdoc, isPNM_ok]
  | some d =>
    cases hp : parseDocString (resetUser st) d.data CommentOwner.Function true with
    | error e =>
      have h := parseDocString_no_pnm (resetUser st) d.data CommentOwner.Function true
      rw [hp, isPNM_error] at h
      simp [userDocStep, hdoc, hp, isPNM_error, h]
    | ok st' =>
      simp only [userDocStep, hdoc, String.toList, hp]
      split <;> simp [isPNM_ok]

theorem userDocMethods_no_pnm (fs : List FunctionDescriptor) : ∀ (st : HandlerState),
    isParamNameMismatch (userDocMethods st fs) = false := by
  induction fs with
  | nil => intro st; rfl
  | cons f t ih =>
    intro st
    unfold userDocMethods
    cases hs : userDocStep st f with
    | error e =>
      have h := userDocStep_no_pnm st f
      rw [hs] at h
      simpa [hs] using h
    | ok p =>
      obtain ⟨st', entry⟩ := p
      cases ht : userDocMethods st' t with
      | error e =>
        have h := ih st'
        rw [ht] at h
        simpa [hs, ht] using h
      | ok p2 => simp [hs, ht, isParamNameMismatch]

/-- C10: user-document generation can never fail with ParamNameMismatch:
no param-name validation happens on the user pass (the check exists only
in devDocumentation), for any contract and any starting parser state. -/
theorem userDocumentation_never_paramNameMismatch (st : HandlerState)
    (c : ContractDescriptor) :
    isParamNameMismatch (userDocumentation st c) = false := by
  unfold userDocumentation
  cases hm : userDocMethods st c.interfaceFunctions with
  | error e =>
    have h := userDocMethods_no_pnm c.interfaceFunctions st
    rw [hm, isPNM_error] at h
    simp [isPNM_error, h]
  | ok p =>
    obtain ⟨st', methods⟩ := p
    simp [isParamNameMismatch]

theorem populateParametersAbi_ok (ns ts : List String) (j : Json)
    (h : populateParametersAbi ns ts = .ok j) :
    j = Json.arr ((ns.zip ts).map fun p =>
      Json.obj [("name", .str p.1), ("type", .str p.2)]) := by
  unfold populateParametersAbi at h
  split at h
  · simp at h
    exact h.symm
  · simp at h

theorem ctorEntryList_length (oc : Option CtorDescriptor) :
    (ctorEntryList oc).length = if oc.isSome then 1 else 0 := by
  cases oc <;> rfl

theorem abiCtorEntries_ok (oc : Option CtorDescriptor) (l : List Json)
    (h : abiCtorEntries oc = .ok l) : l = ctorEntryList oc := by
  cases oc with
  | none => simp [abiCtorEntries] at h; simp [h.symm, ctorEntryList]
  | some k =>
    simp only [abiCtorEntries] at h
    cases h2 : populateParametersAbi k.paramNames k.paramTypes with
    | error e => rw [h2] at h; simp at h
    | ok ins =>
      rw [h2] at h
      simp at h
      rw [← h, populateParametersAbi_ok _ _ _ h2]
      rfl

theorem abiFunctionEntries_ok (fs : List FunctionDescriptor) : ∀ (l : List Json),
    abiFunctionEntries fs = .ok l → l = fs.map abiFunctionEntry := by
  induction fs with
  | nil =>
    intro l h
    simp [abiFunctionEntries] at h
    simp [h.symm]
  | cons f t ih =>
    intro l h
    unfold abiFunctionEntries at h
    cases h1 : populateParametersAbi f.paramNames f.paramTypes with
    | error e => rw [h1] at h; simp at h
    | ok ins =>
      rw [h1] at h
      cases h2 : populateParametersAbi f.returnParamNames f.returnParamTypes with
      | error e => rw [h2] at h; simp at h
      | ok outs =>
        rw [h2] at h
        cases h3 : abiFunctionEntries t with
        | error e => rw [h3] at h; simp at h
        | ok rest =>
          rw [h3] at h
          simp at h
          rw [← h, populateParametersAbi_ok _ _ _ h1, populateParametersAbi_ok _ _ _ h2,
            ih rest h3]
          simp [abiFunctionEntry]

/-- C1: for every contract whose ABI generation succeeds, the produced
array is exactly one function entry per interface function in declared
order, then a constructor entry if a constructor exists, then one event
entry per interface event in declared order; in particular the entry
count is (number of interface functions) + (1 if a constructor exists) +
(number of events). -/
theorem abiInterface_entry_structure (c : ContractDescriptor) (entries : List Json)
    (h : abiInterface c = .ok (Json.arr entries)) :
    entries = c.interfaceFunctions.map abiFunctionEntry ++ ctorEntryList c.ctor ++
      c.interfaceEvents.map abiEventEntry ∧
    entries.length = c.interfaceFunctions.length +
      (if c.ctor.isSome then 1 else 0) + c.interfaceEvents.length := by
  unfold abiInterface at h
  cases h1 : abiFunctionEntries c.interfaceFunctions with
  | error e => rw [h1] at h; simp at h
  | ok fnE =>
    rw [h1] at h
    have hfn := abiFunctionEntries_ok _ _ h1
    cases h2 : abiCtorEntries c.ctor with
    | error e => rw [h2] at h; simp at h
    | ok ctorE =>
      rw [h2] at h
      simp at h
      have hctor := abiCtorEntries_ok _ _ h2
      constructor
      · rw [← h, hfn, hctor]
        simp
      · rw [← h, hfn, hctor]
        simp [ctorEntryList_length]
        try omega

/-- Modelled on the spec's words for the minimal-interface text: a
comma-separated list with no trailing separator. -/
def commaSep : List String → String
  | [] => ""
  | [x] => x
  | x :: y :: t => x ++ "," ++ commaSep (y :: t)

/-- Modelled on the spec's words: parameter-list rendering
(type name,type name,...) with no trailing separator; empty list
renders as open-close parentheses. -/
def paramListSpec (ns ts : List String) : String :=
  "(" ++ commaSep ((ns.zip ts).map fun p => p.2 ++ " " ++ p.1) ++ ")"

/-- Modelled on the spec's words: one interface function renders as
function name, parameter list, then the constant keyword exactly when
the function is constant, then the returns clause exactly when return
parameters exist, with the stray trailing space trimmed when there is
no returns clause, terminated by a semicolon. -/
def renderFunctionSpec (f : FunctionDescriptor) : String :=
  "function " ++ f.name ++ paramListSpec f.paramNames f.paramTypes ++
    (if f.isConstant then
      (if f.returnParamTypes.length ≠ 0 then "constant " else "constant")
     else "") ++
    (if f.returnParamTypes.length ≠ 0 then
      "returns" ++ paramListSpec f.returnParamNames f.returnParamTypes
     else "") ++ ";"

theorem strPopBack_append_single (s : String) (c : Char) :
    strPopBack (s ++ String.mk [c]) = s := by
  unfold strPopBack
  have h : (s ++ String.mk [c]).toList = s.toList ++ [c] := by
    simp [String.toList, String.data_append]
  rw [h, List.dropLast_concat]
  rfl

theorem strLast?_append_single (s : String) (c : Char) :
    strLast? (s ++ String.mk [c]) = some c := by
  unfold strLast?
  have h : (s ++ String.mk [c]).toList = s.toList ++ [c] := by
    simp [String.toList, String.data_append]
  rw [h, List.getLast?_concat]

theorem strLast?_append (s t : String) (h : t.toList ≠ []) :
    strLast? (s ++ t) = strLast? t := by
  unfold strLast?
  have ha : (s ++ t).toList = s.toList ++ t.toList := by
    simp [String.toList, String.data_append]
  rw [ha, List.getLast?_append]
  cases ht : t.toList.getLast? with
  | none => exact absurd (List.getLast?_eq_none_iff.mp ht) h
  | some x => simp

theorem strConcat_comma (l : List String) (h : l ≠ []) :
    strConcat (l.map (· ++ ",")) = commaSep l ++ "," := by
  induction l with
  | nil => exact absurd rfl h
  | cons x t ih =>
    cases t with
    | nil => simp [strConcat, commaSep]
    | cons y t' =>
      have ih' := ih (by simp)
      simp only [List.map] at ih' ⊢
      rw [show strConcat ((x ++ ",") :: (y ++ ",") :: List.map (fun s => s ++ ",") t') =
          (x ++ ",") ++ strConcat ((y ++ ",") :: List.map (fun s => s ++ ",") t') from rfl, ih']
      show (x ++ ",") ++ (commaSep (y :: t') ++ ",") = (x ++ "," ++ commaSep (y :: t')) ++ ","
      simp only [String.append_assoc]

theorem populateParametersSol_eq (ns ts : List String) :
    populateParametersSol ns ts = paramListSpec ns ts := by
  simp only [populateParametersSol, paramListSpec]
  cases hz : ns.zip ts with
  | nil => decide
  | cons p t =>
    rw [show (fun (q : String × String) => q.2 ++ " " ++ q.1 ++ ",") =
        (fun s => s ++ ",") ∘ (fun (q : String × String) => q.2 ++ " " ++ q.1) from rfl,
      ← List.map_map, strConcat_comma _ (by simp)]
    have hlen : ("(" ++ (commaSep ((p :: t).map fun q => q.2 ++ " " ++ q.1) ++ ",")).length ≠ 1 := by
      rw [String.length_append, String.length_append]
      have h1 : ("(" : String).length = 1 := rfl
      have h2 : ("," : String).length = 1 := rfl
      omega
    rw [if_pos hlen, show ("," : String) = String.mk [','] from rfl,
      ← String.append_assoc, strPopBack_append_single]

theorem strLast?_paramListSpec (ns ts : List String) :
    strLast? (paramListSpec ns ts) = some ')' := by
  unfold paramListSpec
  rw [show (")" : String) = String.mk [')'] from rfl, strLast?_append_single]

theorem paramListSpec_toList_ne_nil (ns ts : List String) :
    (paramListSpec ns ts).toList ≠ [] := by
  unfold paramListSpec
  simp [String.toList, String.data_append]

theorem renderFunction_eq (f : FunctionDescriptor) :
    renderFunction f = renderFunctionSpec f := by
  simp only [renderFunction, renderFunctionSpec, populateParametersSol_eq]
  by_cases hc : f.isConstant = true
  · rw [if_pos hc, if_pos hc]
    by_cases hr : f.returnParamTypes.length ≠ 0
    · rw [if_pos hr, if_pos hr, if_pos hr]
      simp only [String.append_assoc]
    · rw [if_neg hr, if_neg hr, if_neg hr]
      have h1 : strLast? ("function " ++ f.name ++
          paramListSpec f.paramNames f.paramTypes ++ "constant ") = some ' ' := by
        rw [strLast?_append _ "constant " (by decide)]
        rfl
      rw [if_pos h1, show ("constant " : String) = "constant" ++ String.mk [' '] from rfl,
        ← String.append_assoc, strPopBack_append_single]
      simp only [String.append_assoc, String.append_empty]
  · rw [if_neg hc, if_neg hc]
    by_cases hr : f.returnParamTypes.length ≠ 0
    · rw [if_pos hr, if_pos hr]
      simp only [String.append_assoc, String.append_empty]
    · rw [if_neg hr, if_neg hr]
      have h1 : strLast? ("function " ++ f.name ++
          paramListSpec f.paramNames f.paramTypes ++ "") = some ')' := by
        rw [String.append_empty, strLast?_append _ _ (paramListSpec_toList_ne_nil _ _)]
        exact strLast?_paramListSpec _ _
      rw [if_neg (fun he => absurd (h1.symm.trans he) (by decide))]
      simp only [String.append_assoc, String.append_empty]

/-- The two per-function renderings agree as functions. -/
theorem renderFunction_funext : renderFunction = renderFunctionSpec :=
  funext renderFunction_eq

/-- C9: the minimal-interface text renders each interface function, in
declared order, as the spec describes: function name, comma-separated
parameter list with no trailing separator (empty list renders as the
bare parentheses), the constant keyword exactly when constant (with the
stray trailing space trimmed when there is no returns clause), the
returns clause exactly when return parameters are declared, terminated
by a semicolon. -/
theorem ABISolidityInterface_render (c : ContractDescriptor) :
    ABISolidityInterface c =
      interfaceHeader c ++ strConcat (c.interfaceFunctions.map renderFunctionSpec) ++ "\x7d" ∧
    (∀ ns ts, populateParametersSol ns ts = paramListSpec ns ts) ∧
    paramListSpec [] [] = "()" := by
  refine ⟨?_, fun ns ts => populateParametersSol_eq ns ts, rfl⟩
  unfold ABISolidityInterface
  rw [renderFunction_funext]

/-- Fixture: an interface function with one named parameter and no comment. -/
def exFn1 : FunctionDescriptor :=
  ⟨"f", false, ["x"], ["uint256"], [], [], "f(uint256)", none⟩

/-- Fixture: a constructor with one parameter. -/
def exCtor : CtorDescriptor := ⟨["a"], ["uint256"]⟩

/-- Fixture: an event with an indexed and a non-indexed parameter. -/
def exEvent : EventDescriptor :=
  ⟨"Transfer", false, [⟨"from", "address", true⟩, ⟨"amount", "uint256", false⟩]⟩

/-- Fixture: a contract with one function, a constructor and one event. -/
def exC1 : ContractDescriptor := ⟨"C", false, none, some exCtor, [exFn1], [exEvent], [], []⟩

/-- Fixture: a function documented with a plain notice comment. -/
def exFnNotice : FunctionDescriptor := ⟨"g", false, [], [], [], [], "g()", some "@notice Hello"⟩

/-- The parser state produced by the notice comment of exFnNotice. -/
def stNoticeHello : HandlerState := ⟨"Hello", "", "", "", "", "", [], DocTagType.Notice⟩

/-- Fixture: a function whose comment documents a parameter name that the
function does not have. -/
def exFnParamZ : FunctionDescriptor :=
  ⟨"h", false, ["x", "y"], ["uint256", "uint256"], [], [], "h(uint256,uint256)", some "@param z bad"⟩

/-- Fixture: a contract containing only exFnParamZ. -/
def exC2 : ContractDescriptor := ⟨"C2", false, none, none, [exFnParamZ], [], [], []⟩

/-- The parser state produced by the comment of exFnParamZ. -/
def stZ : HandlerState := ⟨"", "", "", "", "", "", [("z", "bad")], DocTagType.Param⟩

/-- Fixture: a function whose comment ends inside an active param tag. -/
def exFnParamX : FunctionDescriptor :=
  ⟨"f1", false, ["x"], ["uint256"], [], [], "f1(uint256)", some "@param x foo"⟩

/-- Fixture: a function whose comment is a bare tag-less line. -/
def exFnHello : FunctionDescriptor := ⟨"f2", false, [], [], [], [], "f2()", some "hello"⟩

/-- Fixture: the contract on which the stale-lastTag hazard fires. -/
def cBug : ContractDescriptor := ⟨"B", false, none, none, [exFnParamX, exFnHello], [], [], []⟩

/-- C1 witness: the entry-structure theorem applied to the concrete
contract exC1 (one function, a constructor, one event). -/
theorem abiInterface_entry_structure_witness :
    (exC1.interfaceFunctions.map abiFunctionEntry ++ ctorEntryList exC1.ctor ++
      exC1.interfaceEvents.map abiEventEntry).length =
      exC1.interfaceFunctions.length + (if exC1.ctor.isSome then 1 else 0) +
        exC1.interfaceEvents.length :=
  (abiInterface_entry_structure exC1
    (exC1.interfaceFunctions.map abiFunctionEntry ++ ctorEntryList exC1.ctor ++
      exC1.interfaceEvents.map abiEventEntry) rfl).2

theorem checkParams_mismatch (names : List String) : ∀ (l : List (String × String)),
    (∃ p ∈ l, p.1 ∉ names) → checkParams names l = .error .ParamNameMismatch := by
  intro l
  induction l with
  | nil => intro h; simp at h
  | cons q t ih =>
    intro h
    obtain ⟨p, hp, hpn⟩ := h
    obtain ⟨n, dd⟩ := q
    unfold checkParams
    by_cases hn : n ∈ names
    · have hpt : p ∈ t := by
        rcases List.mem_cons.mp hp with he | ht
        · exfalso
          apply hpn
          rw [he]
          exact hn
        · exact ht
      rw [if_pos hn, ih ⟨p, hpt, hpn⟩]
    · rw [if_neg hn]

theorem devDocStep_mismatch (st : HandlerState) (f : FunctionDescriptor) (d : String)
    (st2 : HandlerState)
    (hdoc : f.documentation = some d)
    (hparse : parseDocString (resetDev st) d.toList CommentOwner.Function true = .ok st2)
    (hbad : ∃ p ∈ st2.m_params, p.1 ∉ f.paramNames) :
    devDocStep st f = .error .ParamNameMismatch := by
  have hcheck := checkParams_mismatch f.paramNames st2.m_params hbad
  simp only [devDocStep, hdoc, hparse, hcheck]

theorem devDocMethods_append_error (f : FunctionDescriptor)
    (post : List FunctionDescriptor) (e : DocError) : ∀ (pre : List FunctionDescriptor)
    (st0 st1 : HandlerState) (entries : List (String × Json)),
    devDocMethods st0 pre = .ok (st1, entries) →
    devDocStep st1 f = .error e →
    devDocMethods st0 (pre ++ f :: post) = .error e := by
  intro pre
  induction pre with
  | nil =>
    intro st0 st1 entries hpre hstep
    simp [devDocMethods] at hpre
    obtain ⟨h1, h2⟩ := hpre
    subst h1
    simp [devDocMethods, hstep]
  | cons g t ih =>
    intro st0 st1 entries hpre hstep
    simp only [List.cons_append]
    unfold devDocMethods at hpre ⊢
    cases hg : devDocStep st0 g with
    | error e2 => rw [hg] at hpre; simp at hpre
    | ok p =>
      obtain ⟨stg, eg⟩ := p
      rw [hg] at hpre
      replace hpre : (match devDocMethods stg t with
          | Except.error e => Except.error e
          | Except.ok (st2, entries2) => Except.ok (st2, eg ++ entries2)) =
          Except.ok (st1, entries) := hpre
      show (match devDocMethods stg (t ++ f :: post) with
          | Except.error e => Except.error e
          | Except.ok (st2, entries2) => Except.ok (st2, eg ++ entries2)) = Except.error e
      cases ht : devDocMethods stg t with
      | error e2 => rw [ht] at hpre; simp at hpre
      | ok p2 =>
        obtain ⟨stt, et⟩ := p2
        rw [ht] at hpre
        simp at hpre
        obtain ⟨h1, -⟩ := hpre
        subst h1
        rw [ih stg _ et ht hstep]

/-- C2: during dev-document generation, as soon as some function's parsed
comment contains a (parameter-name, description) pair whose name does
not occur among that function's actual parameter names (all earlier
functions having been processed without error), the entire generation
fails with ParamNameMismatch: no document is produced for any function. -/
theorem devDocumentation_paramNameMismatch_aborts (st : HandlerState)
    (c : ContractDescriptor) (st0 st1 st2 : HandlerState)
    (header entries : List (String × Json))
    (pre post : List FunctionDescriptor) (f : FunctionDescriptor) (d : String)
    (hfns : c.interfaceFunctions = pre ++ f :: post)
    (hhdr : devDocHeader st c = .ok (st0, header))
    (hpre : devDocMethods st0 pre = .ok (st1, entries))
    (hdoc : f.documentation = some d)
    (hparse : parseDocString (resetDev st1) d.toList CommentOwner.Function true = .ok st2)
    (hbad : ∃ p ∈ st2.m_params, p.1 ∉ f.paramNames) :
    devDocumentation st c = .error DocError.ParamNameMismatch := by
  have hstep := devDocStep_mismatch st1 f d st2 hdoc hparse hbad
  have hms := devDocMethods_append_error f post DocError.ParamNameMismatch pre st0 st1 entries
    hpre hstep
  simp only [devDocumentation, hhdr, hfns, hms]

/-- C2 witness: the concrete contract exC2 (one function f(x, y) whose
comment documents a parameter z) makes dev-document generation fail
with ParamNameMismatch. -/
theorem devDocumentation_paramNameMismatch_aborts_witness :
    devDocumentation initState exC2 = .error DocError.ParamNameMismatch :=
  devDocumentation_paramNameMismatch_aborts initState exC2 initState initState stZ
    [] [] [] [] exFnParamZ "@param z bad" rfl rfl rfl rfl
    (by rw [parseDocString_eval]; rfl) (by decide)

/-- C3: a function is present in the user document only if its parse
produced a non-empty notice, and in the dev document only if at least
one of details, author, params, return is non-empty after the parse; a
function with an absent raw comment produces no entry and leaves the
state untouched, and one with an empty raw comment produces no entry in
either document. -/
theorem documentation_entry_conditions :
    (∀ (st : HandlerState) (f : FunctionDescriptor) (st' : HandlerState)
        (es : List (String × Json)), userDocStep st f = .ok (st', es) → es ≠ [] →
        ∃ d, f.documentation = some d ∧
          parseDocString (resetUser st) d.toList CommentOwner.Function true = .ok st' ∧
          st'.m_notice ≠ "") ∧
    (∀ (st : HandlerState) (f : FunctionDescriptor) (st' : HandlerState)
        (es : List (String × Json)), devDocStep st f = .ok (st', es) → es ≠ [] →
        ∃ d, f.documentation = some d ∧
          parseDocString (resetDev st) d.toList CommentOwner.Function true = .ok st' ∧
          (st'.m_dev ≠ "" ∨ st'.m_author ≠ "" ∨ st'.m_params ≠ [] ∨ st'.m_return ≠ "")) ∧
    (∀ (st : HandlerState) (f : FunctionDescriptor), f.documentation = none →
        userDocStep st f = .ok (st, []) ∧ devDocStep st f = .ok (st, [])) ∧
    (∀ (st : HandlerState) (f : FunctionDescriptor), f.documentation = some "" →
        userDocStep st f = .ok (resetUser st, []) ∧ devDocStep st f = .ok (resetDev st, [])) := by
  refine ⟨?_, ?_, ?_, ?_⟩
  · intro st f st' es h hne
    cases hdoc : f.documentation with
    | none =>
      simp only [userDocStep, hdoc] at h
      simp at h
      exact absurd h.2 hne
    | some d =>
      simp only [userDocStep, hdoc] at h
      cases hp : parseDocString (resetUser st) d.toList CommentOwner.Function true with
      | error e => rw [hp] at h; simp at h
      | ok st2 =>
        rw [hp] at h
        by_cases hnot : st2.m_notice = ""
        · simp [hnot] at h
          exact absurd h.2 hne
        · simp [hnot] at h
          obtain ⟨he1, -⟩ := h
          subst he1
          exact ⟨d, rfl, hp, hnot⟩
  · intro st f st' es h hne
    cases hdoc : f.documentation with
    | none =>
      simp only [devDocStep, hdoc] at h
      simp at h
      exact absurd h.2 hne
    | some d =>
      simp only [devDocStep, hdoc] at h
      cases hp : parseDocString (resetDev st) d.toList CommentOwner.Function true with
      | error e => rw [hp] at h; simp at h
      | ok st2 =>
        rw [hp] at h
        simp only [] at h
        cases hcp : checkParams f.paramNames st2.m_params with
        | error e => rw [hcp] at h; simp at h
        | ok params =>
          rw [hcp] at h
          by_cases h1 : st2.m_dev = ""
          · by_cases h2 : st2.m_author = ""
            · by_cases h3 : st2.m_params = []
              · by_cases h4 : st2.m_return = ""
                · simp [h1, h2, h3, h4] at h
                  exact absurd h.2 hne
                · simp [h1, h2, h3, h4] at h
                  obtain ⟨he1, -⟩ := h
                  subst he1
                  exact ⟨d, rfl, hp, Or.inr (Or.inr (Or.inr h4))⟩
              · simp [h1, h2, h3] at h
                obtain ⟨he1, -⟩ := h
                subst he1
                exact ⟨d, rfl, hp, Or.inr (Or.inr (Or.inl h3))⟩
            · simp [h1, h2] at h
              obtain ⟨he1, -⟩ := h
              subst he1
              exact ⟨d, rfl, hp, Or.inr (Or.inl h2)⟩
          · simp [h1] at h
            obtain ⟨he1, -⟩ := h
            subst he1
            exact ⟨d, rfl, hp, Or.inl h1⟩
  · intro st f hdoc
    constructor
    · simp [userDocStep, hdoc]
    · simp [devDocStep, hdoc]
  · intro st f hdoc
    constructor
    · simp [userDocStep, hdoc, parseDocString_nil, resetUser]
    · simp [devDocStep, hdoc, parseDocString_nil, resetDev, checkParams]

/-- C3 witness: the concrete function exFnNotice (comment notice Hello)
produces a user entry, so the parse yields a non-empty notice. -/
theorem documentation_entry_conditions_witness :
    ∃ d, exFnNotice.documentation = some d ∧
      parseDocString (resetUser initState) d.toList CommentOwner.Function true =
        .ok stNoticeHello ∧
      stNoticeHello.m_notice ≠ "" :=
  documentation_entry_conditions.1 initState exFnNotice stNoticeHello
    [(exFnNotice.externalSignature, Json.obj [("notice", Json.str stNoticeHello.m_notice)])]
    (by
      have hp : parseDocString (resetUser initState) ("@notice Hello".toList)
          CommentOwner.Function true = .ok stNoticeHello := by
        rw [parseDocString_eval]
        rfl
      simp only [userDocStep, show exFnNotice.documentation = some "@notice Hello" from rfl, hp]
      rfl)
    (by simp)

theorem parseDocTag_notice (st : HandlerState) (pos : List Char) (owner : CommentOwner) :
    parseDocTag st pos "notice" owner =
      .ok (parseDocTagLine st pos .notice .Notice false) := by
  unfold parseDocTag
  simp

theorem appendDocTag_notice (st : HandlerState) (pos : List Char) (owner : CommentOwner)
    (h : st.m_lastTag = DocTagType.Notice) :
    appendDocTag st pos owner = .ok (parseDocTagLine st pos .notice .Notice true) := by
  unfold appendDocTag
  rw [h]

theorem parse_cont_line (st : HandlerState) (owner : CommentOwner) (l2 : List Char)
    (hTag : st.m_lastTag = DocTagType.Notice) (h2 : '\n' ∉ l2) (h3 : '@' ∉ l2)
    (h4 : l2 ≠ []) :
    parseDocString st l2 owner false =
      .ok { st.setField DocField.notice
          ((if headNotSpace l2 then st.m_notice ++ " " else st.m_notice) ++ String.mk l2) with
        m_lastTag := DocTagType.Notice } := by
  obtain ⟨c2, t2, rfl⟩ := List.exists_cons_of_ne_nil h4
  have hAt2 : '@' ∉ (c2 :: t2).takeWhile (· != '\n') :=
    fun m => h3 ((List.takeWhile_sublist _).subset m)
  rw [parseDocString_cons_cont st c2 t2 owner false hAt2 (by rw [hTag]; simp)]
  rw [appendDocTag_notice st (c2 :: t2) owner hTag]
  show parseDocString
      ({ st.setField DocField.notice
          ((if true && headNotSpace (c2 :: t2) then st.getField DocField.notice ++ " "
            else st.getField DocField.notice) ++
            String.mk ((c2 :: t2).takeWhile (· != '\n'))) with
        m_lastTag := DocTagType.Notice })
      (((c2 :: t2).dropWhile (· != '\n')).tail) owner false = _
  rw [takeWhile_ne_all '\n' (c2 :: t2) h2,
    (dropWhile_ne_eq_nil_iff '\n' (c2 :: t2)).mpr h2]
  rw [show ([] : List Char).tail = [] from rfl, parseDocString_nil]
  rfl

/-- C4: a comment consisting of a notice tag line and one continuation
line (the second line non-blank, tag-free and newline-free) parses to a
notice equal to the two lines joined by exactly one inserted space when
the continuation does not itself start with a space, and with no
inserted space when it does. -/
theorem continuation_single_space_fold (st0 : HandlerState) (owner : CommentOwner)
    (l1 l2 : List Char) (h1 : '\n' ∉ l1) (h2 : '\n' ∉ l2) (h3 : '@' ∉ l2) (h4 : l2 ≠ []) :
    parseDocString (resetUser st0)
        ('@' :: 'n' :: 'o' :: 't' :: 'i' :: 'c' :: 'e' :: ' ' :: (l1 ++ '\n' :: l2))
        owner true =
      .ok { resetUser st0 with
            m_notice := (if headNotSpace l2 then String.mk l1 ++ " " else String.mk l1) ++
              String.mk l2,
            m_lastTag := DocTagType.Notice } := by
  obtain ⟨c2, t2, rfl⟩ := List.exists_cons_of_ne_nil h4
  have hAt : '@' ∈ ('@' :: 'n' :: 'o' :: 't' :: 'i' :: 'c' :: 'e' :: ' ' ::
      (l1 ++ '\n' :: c2 :: t2)).takeWhile (· != '\n') := by
    show '@' ∈ '@' :: (('n' :: 'o' :: 't' :: 'i' :: 'c' :: 'e' :: ' ' ::
      (l1 ++ '\n' :: c2 :: t2)).takeWhile (· != '\n'))
    exact List.mem_cons_self _ _
  have hRA : (('@' :: 'n' :: 'o' :: 't' :: 'i' :: 'c' :: 'e' :: ' ' ::
      (l1 ++ '\n' :: c2 :: t2)).dropWhile (· != '@')).tail.dropWhile
      (fun ch => !(isSpaceOrNl ch)) ≠ [] := by
    show (' ' :: (l1 ++ '\n' :: c2 :: t2)) ≠ []
    simp
  rw [parseDocString_cons_tag _ _ _ _ _ hAt hRA]
  rw [show String.mk ((('@' :: 'n' :: 'o' :: 't' :: 'i' :: 'c' :: 'e' :: ' ' ::
      (l1 ++ '\n' :: c2 :: t2)).dropWhile (· != '@')).tail.takeWhile
      (fun ch => !(isSpaceOrNl ch))) = "notice" from rfl]
  rw [show ((('@' :: 'n' :: 'o' :: 't' :: 'i' :: 'c' :: 'e' :: ' ' ::
      (l1 ++ '\n' :: c2 :: t2)).dropWhile (· != '@')).tail.dropWhile
      (fun ch => !(isSpaceOrNl ch))).tail = l1 ++ '\n' :: c2 :: t2 from rfl]
  rw [parseDocTag_notice]
  show parseDocString
      ({ (resetUser st0).setField DocField.notice
          ((resetUser st0).getField DocField.notice ++
            String.mk ((l1 ++ '\n' :: c2 :: t2).takeWhile (· != '\n'))) with
        m_lastTag := DocTagType.Notice })
      (((l1 ++ '\n' :: c2 :: t2).dropWhile (· != '\n')).tail) owner false = _
  rw [takeWhile_ne_of_not_mem '\n' (c2 :: t2) l1 h1,
    dropWhile_ne_of_not_mem '\n' (c2 :: t2) l1 h1, List.tail_cons]
  have hstep2 := parse_cont_line
    ({ (resetUser st0).setField DocField.notice
        ((resetUser st0).getField DocField.notice ++ String.mk l1) with
      m_lastTag := DocTagType.Notice }) owner (c2 :: t2) rfl h2 h3 (by simp)
  rw [hstep2]
  rfl

/-- C4 witness: the concrete two-line notice comment folds into a single
space-joined notice string. -/
theorem continuation_single_space_fold_witness :
    parseDocString (resetUser initState)
        ('@' :: 'n' :: 'o' :: 't' :: 'i' :: 'c' :: 'e' :: ' ' ::
          ("Line one".toList ++ '\n' :: "continued".toList)) CommentOwner.Function true =
      .ok { resetUser initState with
            m_notice := (if headNotSpace ("continued".toList) then
                String.mk ("Line one".toList) ++ " "
              else String.mk ("Line one".toList)) ++ String.mk ("continued".toList),
            m_lastTag := DocTagType.Notice } :=
  continuation_single_space_fold initState CommentOwner.Function ("Line one".toList)
    ("continued".toList) (by decide) (by decide) (by decide) (by decide)

/-- C5 (the hazard evaluated): on the concrete contract cBug — the first
function's comment ends inside an active param tag, the next function's
comment starts with a tag-less line — resetDev clears m_params but not
m_lastTag, so the second parse reaches appendDocTagParam with an empty
parameter list and dev-document generation fails with the
internal-invariant (solAssert) failure. -/
theorem devDocumentation_stale_param_assert :
    devDocumentation initState cBug = .error DocError.InternalInvariantViolation := by
  simp only [devDocumentation, devDocHeader, devDocMethods, devDocStep, cBug, exFnParamX,
    exFnHello, checkParams, resetDev, initState, parseDocString_funext]
  rfl
